import Mathlib

/-!
# Fan-out logger (`logger.go`): a shallow embedding

The Go package wraps a slice of `*pterm.Logger` sinks.  The embedding keeps

* the runtime failures of Go (`index out of range`, `slice bounds out of range`) as
  values of `Panic`, returned in `Except`;
* Go slices as headers (`Slice`) over a store of backing arrays (`Heap`), so that
  `append` writes into the shared backing array when the capacity allows it;
* the effect of a method on its sinks as the sequence of sink calls it performs
  (`SinkCall`), threaded through the method as explicit state.

The sink type `S` stands for the values of `*pterm.Logger` (the `default` of `S` is the
value a freshly allocated array cell holds).  What a sink does when it is called belongs
to `pterm` and is not interpreted here: a trace lists the calls a method performs when
each sink call returns to it.
-/

namespace GoLogger

/-! ## Data model -/

/-- Run-time failures raised by indexing and slicing. -/
inductive Panic where
  | indexOutOfRange (index len : Nat)
  | sliceBoundsOutOfRange (low high : Nat)
deriving DecidableEq, Repr

/-- The struct `pterm.LoggerArgument`: a key and an untouched value of type `any`. -/
structure LoggerArgument (Any : Type) where
  Key : String
  Value : Any
deriving DecidableEq, Repr

/-- The type `pterm.LogLevel` (a Go `int`). -/
abbrev LogLevel := Int

/-- Indexing `args[i]` of a Go slice given by its elements, with the bounds check. -/
def index {α : Type} (args : List α) (i : Nat) : Except Panic α :=
  match args[i]? with
  | some a => .ok a
  | none => .error (.indexOutOfRange i args.length)

/-- A Go slice header: the backing array it points into, the offset of its first element in
that array, its length and its capacity. -/
structure Slice where
  arr : Nat
  off : Nat
  len : Nat
  cap : Nat
deriving DecidableEq, Repr

/-- The `nil` slice (the zero value of a slice-typed field). -/
def Slice.nil : Slice := ⟨0, 0, 0, 0⟩

/-- The store of backing arrays, addressed by allocation number. -/
abbrev Heap (S : Type) := List (List S)

/-- The struct `Logger`: the sinks, a level and the caller flag. -/
structure Logger where
  Loggers : Slice
  Level : LogLevel
  ShowCaller : Bool
deriving DecidableEq, Repr

/-- The six severity entry points of a sink. -/
inductive Severity where
  | Trace | Debug | Info | Warn | Error | Fatal
deriving DecidableEq, Repr

/-- One call made on a sink: a severity entry point with the message and the argument
groups, `WithLevel(level)`, or `WithCaller(b...)`. -/
inductive SinkCall (S Any : Type) where
  | log (sev : Severity) (sink : S) (msg : String) (args : List (List (LoggerArgument Any)))
  | withLevel (sink : S) (level : LogLevel)
  | withCaller (sink : S) (b : List Bool)
deriving DecidableEq, Repr

/-- The sink a call is made on. -/
def SinkCall.target {S Any : Type} : SinkCall S Any → S
  | .log _ s _ _ => s
  | .withLevel s _ => s
  | .withCaller s _ => s

/-- The sequence of sink calls performed so far. -/
abbrev Calls (S Any : Type) := List (SinkCall S Any)

/-- Performing one sink call: it is recorded after the calls made so far. -/
def emit {S Any : Type} (c : SinkCall S Any) (t : Calls S Any) : Calls S Any := t ++ [c]

/-! ## Slices over the heap -/

/-- The cell `k` of backing array `a`. -/
def Heap.cell {S : Type} [Inhabited S] (h : Heap S) (a k : Nat) : S :=
  (h.getD a []).getD k default

/-- The elements `s[0], ..., s[len-1]` seen through a slice header. -/
def Slice.elems {S : Type} [Inhabited S] (h : Heap S) (s : Slice) : List S :=
  (List.range s.len).map (fun i => h.cell s.arr (s.off + i))

/-- The header is backed by the heap: the length is within the capacity and, when there is
any capacity, the array exists and covers it. -/
def Slice.WF {S : Type} (h : Heap S) (s : Slice) : Prop :=
  s.len ≤ s.cap ∧ (0 < s.cap → s.arr < h.length ∧ s.off + s.cap ≤ (h.getD s.arr []).length)

instance {S : Type} (h : Heap S) (s : Slice) : Decidable (s.WF h) := by
  unfold Slice.WF; infer_instance

/-- Indexing `s[i]` with the bounds check. -/
def Slice.index {S : Type} [Inhabited S] (h : Heap S) (s : Slice) (i : Nat) : Except Panic S :=
  if i < s.len then .ok (h.cell s.arr (s.off + i)) else .error (.indexOutOfRange i s.len)

/-- Reslicing `s[low:]` with the bounds check. -/
def Slice.sliceFrom (s : Slice) (low : Nat) : Except Panic Slice :=
  if low ≤ s.len then .ok ⟨s.arr, s.off + low, s.len - low, s.cap - low⟩
  else .error (.sliceBoundsOutOfRange low s.len)

/-- The builtin `append(s, x)`.  With spare capacity the element is written into the backing
array of `s`, right after its last element; otherwise a new array is allocated, of capacity
`grow s.cap` (the runtime's growth rule) and at least `s.len + 1`, the elements are copied
and `x` is stored after them. -/
def goAppend {S : Type} [Inhabited S] (grow : Nat → Nat) (h : Heap S) (s : Slice) (x : S) :
    Heap S × Slice :=
  if s.len < s.cap then
    (h.set s.arr ((h.getD s.arr []).set (s.off + s.len) x), { s with len := s.len + 1 })
  else
    let newcap := max (grow s.cap) (s.len + 1)
    (h ++ [s.elems h ++ x :: List.replicate (newcap - (s.len + 1)) default],
      ⟨h.length, 0, s.len + 1, newcap⟩)

/-- The statement `for _, x := range xs { body }` over the elements of a slice, threading the
state through the iterations. -/
def forRange {α σ : Type} (xs : List α) (body : α → σ → σ) (st : σ) : σ :=
  xs.foldl (fun st x => body x st) st

/-! ## `Args` -/

/-- The loop `for i := 0; i < len(args); i += 2 { ... }` of `Args`, from index `i` on,
with `loggerArgs` as accumulator. -/
def Args.loop {Any : Type} (Sprint : Any → String) (args : List Any) (i : Nat)
    (loggerArgs : List (LoggerArgument Any)) : Except Panic (List (LoggerArgument Any)) :=
  if i < args.length then
    match index args i with
    | .error e => .error e
    | .ok a =>
      let key := Sprint a
      match index args (i + 1) with
      | .error e => .error e
      | .ok value => Args.loop Sprint args (i + 2) (loggerArgs ++ [⟨key, value⟩])
  else
    .ok loggerArgs
termination_by args.length - i
decreasing_by omega

/-- The method `Args`: converts `key, value, key, value, ...` to logger arguments.
`Sprint` is `pterm.Sprint`. -/
def Logger.Args {Any : Type} (_l : Logger) (Sprint : Any → String) (args : List Any) :
    Except Panic (List (LoggerArgument Any)) :=
  Args.loop Sprint args 0 []

/-! ## `ArgsFromMap` -/

/-- A Go `map[string]any`: its entries, no key twice. -/
structure GoMap (Any : Type) where
  entries : List (String × Any)
  nodup : (entries.map Prod.fst).Nodup

/-- The method `ArgsFromMap`.  The statement `for k, v := range m` visits every entry of the
map once, in an order the runtime chooses: `visit` is that order. -/
def Logger.ArgsFromMap {Any : Type} (_l : Logger) (visit : List (String × Any)) :
    List (LoggerArgument Any) :=
  forRange visit (fun kv loggerArgs => loggerArgs ++ [⟨kv.1, kv.2⟩]) []

/-- The orders in which `range` may visit the map `m`. -/
def GoMap.Visits {Any : Type} (m : GoMap Any) (visit : List (String × Any)) : Prop :=
  visit.Perm m.entries

/-! ## Configuration -/

/-- The method `WithCustomLogger`: appends `logger` to the sinks of the copy `l` of the
receiver and returns (a pointer to) that copy. -/
def Logger.WithCustomLogger {S : Type} [Inhabited S] (grow : Nat → Nat) (h : Heap S)
    (l : Logger) (logger : S) : Heap S × Logger :=
  let r := goAppend grow h l.Loggers logger
  (r.1, { l with Loggers := r.2 })

/-- The method `WithLevel`: calls `WithLevel(level)` on every sink, drops what it returns,
and returns the copy `l` of the receiver. -/
def Logger.WithLevel {S Any : Type} [Inhabited S] (h : Heap S) (l : Logger) (level : LogLevel)
    (t : Calls S Any) : Calls S Any × Logger :=
  (forRange (l.Loggers.elems h) (fun logger t => emit (.withLevel logger level) t) t, l)

/-- The method `WithCaller`: calls `WithCaller(b...)` on every sink and returns the copy `l` of
the receiver. -/
def Logger.WithCaller {S Any : Type} [Inhabited S] (h : Heap S) (l : Logger) (b : List Bool)
    (t : Calls S Any) : Calls S Any × Logger :=
  (forRange (l.Loggers.elems h) (fun logger t => emit (.withCaller logger b) t) t, l)

/-! ## Logging -/

/-- The method `Trace`. -/
def Logger.Trace {S Any : Type} [Inhabited S] (h : Heap S) (l : Logger) (msg : String)
    (args : List (List (LoggerArgument Any))) (t : Calls S Any) : Calls S Any :=
  forRange (l.Loggers.elems h) (fun logger t => emit (.log .Trace logger msg args) t) t

/-- The method `Debug`. -/
def Logger.Debug {S Any : Type} [Inhabited S] (h : Heap S) (l : Logger) (msg : String)
    (args : List (List (LoggerArgument Any))) (t : Calls S Any) : Calls S Any :=
  forRange (l.Loggers.elems h) (fun logger t => emit (.log .Debug logger msg args) t) t

/-- The method `Info`. -/
def Logger.Info {S Any : Type} [Inhabited S] (h : Heap S) (l : Logger) (msg : String)
    (args : List (List (LoggerArgument Any))) (t : Calls S Any) : Calls S Any :=
  forRange (l.Loggers.elems h) (fun logger t => emit (.log .Info logger msg args) t) t

/-- The method `Warn`. -/
def Logger.Warn {S Any : Type} [Inhabited S] (h : Heap S) (l : Logger) (msg : String)
    (args : List (List (LoggerArgument Any))) (t : Calls S Any) : Calls S Any :=
  forRange (l.Loggers.elems h) (fun logger t => emit (.log .Warn logger msg args) t) t

/-- The method `Error`. -/
def Logger.Error {S Any : Type} [Inhabited S] (h : Heap S) (l : Logger) (msg : String)
    (args : List (List (LoggerArgument Any))) (t : Calls S Any) : Calls S Any :=
  forRange (l.Loggers.elems h) (fun logger t => emit (.log .Error logger msg args) t) t

/-- The method `Fatal`: an error call on every sink but the first, then the fatal call on
the first one. -/
def Logger.Fatal {S Any : Type} [Inhabited S] (h : Heap S) (l : Logger) (msg : String)
    (args : List (List (LoggerArgument Any))) (t : Calls S Any) : Except Panic (Calls S Any) := do
  let t1 ←
    if l.Loggers.len > 1 then do
      let rest ← l.Loggers.sliceFrom 1
      pure (forRange (rest.elems h) (fun logger t => emit (.log .Error logger msg args) t) t)
    else pure t
  if l.Loggers.len > 0 then do
    let first ← l.Loggers.index h 0
    pure (emit (.log .Fatal first msg args) t1)
  else pure t1

/-! ## Sample values -/

/-- A small universe of `any` values: strings and integers. -/
inductive Val where
  | str (s : String)
  | int (n : Int)
deriving DecidableEq, Repr

/-- The display string of a sample value. -/
def Val.sprint : Val → String
  | .str s => s
  | .int n => toString n

/-- A logger without sinks. -/
def emptyLogger : Logger := ⟨Slice.nil, 0, false⟩

/-- A heap with one array holding the sinks `A`, `B`, `C` and one free cell. -/
def heapABC : Heap String := [["A", "B", "C", ""]]

/-- A logger over the sinks `A`, `B`, `C` of `heapABC`, with capacity for one more. -/
def loggerABC : Logger := ⟨⟨0, 0, 3, 4⟩, 3, false⟩

/-- The growth rule that doubles the capacity. -/
def double (cap : Nat) : Nat := 2 * cap

/-- A sample map with the two entries `a ↦ 1` and `b ↦ "x"`. -/
def mapAB : GoMap Val := ⟨[("a", Val.int 1), ("b", Val.str "x")], by decide⟩

/-! ## Chains of configuration calls -/

/-- A call of one of the three configuration methods, with its argument. -/
inductive Mutator (S : Type) where
  | WithCustomLogger (logger : S)
  | WithLevel (level : LogLevel)
  | WithCaller (b : List Bool)
deriving DecidableEq, Repr

/-- The sink a configuration call adds, if it adds one. -/
def Mutator.added {S : Type} : Mutator S → Option S
  | .WithCustomLogger logger => some logger
  | .WithLevel _ => none
  | .WithCaller _ => none

/-- One configuration call on the logger of a state (heap, logger, sink calls made so far);
the logger it returns is the logger of the next state. -/
def Mutator.apply {S Any : Type} [Inhabited S] (grow : Nat → Nat)
    (st : Heap S × Logger × Calls S Any) : Mutator S → Heap S × Logger × Calls S Any
  | .WithCustomLogger logger =>
    ((st.2.1.WithCustomLogger grow st.1 logger).1,
      (st.2.1.WithCustomLogger grow st.1 logger).2, st.2.2)
  | .WithLevel level =>
    (st.1, (st.2.1.WithLevel st.1 level st.2.2).2, (st.2.1.WithLevel st.1 level st.2.2).1)
  | .WithCaller b =>
    (st.1, (st.2.1.WithCaller st.1 b st.2.2).2, (st.2.1.WithCaller st.1 b st.2.2).1)

/-- A chain `l.m1(..).m2(..)...` of configuration calls, each on the logger returned by the
one before. -/
def chain {S Any : Type} [Inhabited S] (grow : Nat → Nat) (st : Heap S × Logger × Calls S Any)
    (ops : List (Mutator S)) : Heap S × Logger × Calls S Any :=
  ops.foldl (Mutator.apply grow) st

/-- The state before any call: no array, the logger without sinks, no sink call. -/
def start (S Any : Type) : Heap S × Logger × Calls S Any := ([], emptyLogger, [])

/-! ## The sinks in memory -/

/-- The fields of a `pterm.Logger` that the configuration calls are about. -/
structure PtermLogger where
  Level : LogLevel
  ShowCaller : Bool
deriving DecidableEq, Repr

/-- The method `WithLevel` of `pterm.Logger`, library code outside this repository:
`func (l Logger) WithLevel(level LogLevel) *Logger { l.Level = level; return &l }`.
Its receiver is a value: the level is set on a copy of the sink, and the result points to
that copy. -/
def PtermLogger.WithLevel (l : PtermLogger) (level : LogLevel) : PtermLogger :=
  { l with Level := level }

/-- The call `logger.WithLevel(level)` through the pointer `logger`, on the sinks in memory
(`mem` gives the object each pointer points to): the object is read, no object in `mem` is
written, and the new object is returned. -/
def callWithLevel {S : Type} (mem : S → PtermLogger) (logger : S) (level : LogLevel) :
    (S → PtermLogger) × PtermLogger :=
  (mem, (mem logger).WithLevel level)

/-- The method `WithLevel` of the fan-out logger, run on the sinks in memory: the loop calls
`logger.WithLevel(level)` on every sink and drops what the call returns. -/
def Logger.WithLevel.onSinks {S : Type} [Inhabited S] (h : Heap S) (l : Logger)
    (level : LogLevel) (mem : S → PtermLogger) : (S → PtermLogger) × Logger :=
  (forRange (l.Loggers.elems h) (fun logger mem => (callWithLevel mem logger level).1) mem, l)

/-- Sinks in memory that all have level 3 and no caller. -/
def memAll3 : String → PtermLogger := fun _ => ⟨3, false⟩

/-- The state after `Logger{}.WithCustomLogger(A).WithCustomLogger(B).WithCustomLogger(C)`,
with capacities doubling: the logger `L` it holds has three sinks in an array of four cells. -/
def stateL : Heap String × Logger × Calls String Val :=
  chain double (start String Val)
    [.WithCustomLogger "A", .WithCustomLogger "B", .WithCustomLogger "C"]

/-- The heap and the logger `L2` after `L2 = L.WithCustomLogger(D)`. -/
def afterD : Heap String × Logger := stateL.2.1.WithCustomLogger double stateL.1 "D"

/-- The heap and the logger `L3` after, next, `L3 = L.WithCustomLogger(E)`. -/
def afterE : Heap String × Logger := stateL.2.1.WithCustomLogger double afterD.1 "E"

/-- The logger over `A`, `B`, `C` again, with another level and the caller flag set. -/
def loggerABC5 : Logger := ⟨⟨0, 0, 3, 4⟩, 5, true⟩

/-! ## Lemmas on `Args` -/

theorem index_of_lt {α : Type} (args : List α) (i : Nat) (hi : i < args.length) :
    index args i = .ok args[i] := by
  simp [index, List.getElem?_eq_getElem hi]

theorem index_of_ge {α : Type} (args : List α) (i : Nat) (hi : args.length ≤ i) :
    index args i = .error (.indexOutOfRange i args.length) := by
  simp [index, List.getElem?_eq_none hi]

/-- One iteration of the loop of `Args` when both reads are in range. -/
theorem Args.loop_step {Any : Type} (Sprint : Any → String) (args : List Any) (i : Nat)
    (acc : List (LoggerArgument Any)) (h1 : i + 1 < args.length) :
    Args.loop Sprint args i acc =
      Args.loop Sprint args (i + 2) (acc ++ [⟨Sprint args[i], args[i + 1]⟩]) := by
  rw [Args.loop]
  have h0 : i < args.length := by omega
  simp [h0, index_of_lt args i h0, index_of_lt args (i + 1) h1]

/-- The loop of `Args` stops once the index has reached the length. -/
theorem Args.loop_done {Any : Type} (Sprint : Any → String) (args : List Any) (i : Nat)
    (acc : List (LoggerArgument Any)) (h : args.length ≤ i) :
    Args.loop Sprint args i acc = .ok acc := by
  rw [Args.loop]
  simp [Nat.not_lt.mpr h]

/-- The loop of `Args` fails when the key at `i` is the last element. -/
theorem Args.loop_last {Any : Type} (Sprint : Any → String) (args : List Any) (i : Nat)
    (acc : List (LoggerArgument Any)) (h : i + 1 = args.length) :
    Args.loop Sprint args i acc = .error (.indexOutOfRange (i + 1) args.length) := by
  rw [Args.loop]
  have h0 : i < args.length := by omega
  simp [h0, index_of_lt args i h0, index_of_ge args (i + 1) (by omega)]

/-- With `2 * m` elements left from index `i` on, the loop of `Args` returns the
accumulator followed by `m` fields, field `j` made from the elements `i + 2 * j` and
`i + 2 * j + 1`. -/
theorem Args.loop_even {Any : Type} (Sprint : Any → String) (args : List Any) :
    ∀ (m i : Nat) (acc : List (LoggerArgument Any)), args.length = i + 2 * m →
      ∃ out, Args.loop Sprint args i acc = .ok (acc ++ out) ∧ out.length = m ∧
        ∀ j, j < m → ∃ k v, args[i + 2 * j]? = some k ∧ args[i + 2 * j + 1]? = some v ∧
          out[j]? = some ⟨Sprint k, v⟩ := by
  intro m
  induction m with
  | zero =>
    intro i acc hlen
    refine ⟨[], ?_, rfl, ?_⟩
    · rw [Args.loop_done Sprint args i acc (by omega)]; simp
    · intro j hj; omega
  | succ m ih =>
    intro i acc hlen
    have h1 : i + 1 < args.length := by omega
    obtain ⟨out, hrun, hlen', hfld⟩ :=
      ih (i + 2) (acc ++ [⟨Sprint args[i], args[i + 1]⟩]) (by omega)
    refine ⟨⟨Sprint args[i], args[i + 1]⟩ :: out, ?_, by simp [hlen'], ?_⟩
    · rw [Args.loop_step Sprint args i acc h1, hrun]; simp
    · intro j hj
      cases j with
      | zero =>
        refine ⟨args[i], args[i + 1], ?_, ?_, by simp⟩
        · simp [List.getElem?_eq_getElem (show i < args.length by omega)]
        · simp [List.getElem?_eq_getElem h1]
      | succ j =>
        obtain ⟨k, v, hk, hv, ho⟩ := hfld j (by omega)
        refine ⟨k, v, ?_, ?_, by simpa using ho⟩
        · rw [← hk]; congr 1; omega
        · rw [← hv]; congr 1; omega

/-- With `2 * m + 1` elements left from index `i` on, the loop of `Args` fails on reading
the value that would follow the last element. -/
theorem Args.loop_odd {Any : Type} (Sprint : Any → String) (args : List Any) :
    ∀ (m i : Nat) (acc : List (LoggerArgument Any)), args.length = i + 2 * m + 1 →
      Args.loop Sprint args i acc = .error (.indexOutOfRange args.length args.length) := by
  intro m
  induction m with
  | zero =>
    intro i acc hlen
    rw [Args.loop_last Sprint args i acc (by omega)]
    have : i + 1 = args.length := by omega
    rw [this]
  | succ m ih =>
    intro i acc hlen
    rw [Args.loop_step Sprint args i acc (by omega)]
    exact ih (i + 2) _ (by omega)

/-! ## Lemmas on loops and slices -/

/-- A `range` loop whose body performs one sink call per element performs these calls in
the order of the elements, after the calls already made. -/
theorem forRange_emit {S Any α : Type} (f : α → SinkCall S Any) (xs : List α) :
    ∀ t : Calls S Any, forRange xs (fun x t => emit (f x) t) t = t ++ xs.map f := by
  induction xs with
  | nil => intro t; simp [forRange]
  | cons x xs ih =>
    intro t
    have h := ih (emit (f x) t)
    simp only [forRange, List.foldl_cons] at h ⊢
    rw [h]
    simp [emit]

/-- A `range` loop that appends one value per element builds the list of these values. -/
theorem forRange_append {α β : Type} (f : α → β) (xs : List α) :
    ∀ acc : List β, forRange xs (fun x acc => acc ++ [f x]) acc = acc ++ xs.map f := by
  induction xs with
  | nil => intro acc; simp [forRange]
  | cons x xs ih =>
    intro acc
    have h := ih (acc ++ [f x])
    simp only [forRange, List.foldl_cons] at h ⊢
    rw [h]
    simp

theorem Slice.elems_length {S : Type} [Inhabited S] (h : Heap S) (s : Slice) :
    (s.elems h).length = s.len := by
  simp [Slice.elems]

theorem Slice.elems_getElem? {S : Type} [Inhabited S] (h : Heap S) (s : Slice) (i : Nat)
    (hi : i < s.len) : (s.elems h)[i]? = some (h.cell s.arr (s.off + i)) := by
  simp [Slice.elems, List.getElem?_range hi]

/-- Two headers of the same length whose cells agree show the same elements. -/
theorem Slice.elems_congr {S : Type} [Inhabited S] (h h' : Heap S) (s s' : Slice)
    (hlen : s.len = s'.len)
    (hcell : ∀ i, i < s.len → h.cell s.arr (s.off + i) = h'.cell s'.arr (s'.off + i)) :
    s.elems h = s'.elems h' := by
  unfold Slice.elems
  rw [← hlen]
  apply List.map_congr_left
  intro i hi
  exact hcell i (List.mem_range.mp hi)

/-- The elements of `s[1:]` are those of `s` without the first. -/
theorem Slice.elems_sliceFrom_one {S : Type} [Inhabited S] (h : Heap S) (s : Slice) :
    Slice.elems h ⟨s.arr, s.off + 1, s.len - 1, s.cap - 1⟩ = (s.elems h).drop 1 := by
  apply List.ext_getElem?
  intro i
  by_cases hi : i < s.len - 1
  · rw [Slice.elems_getElem? h _ i hi, List.getElem?_drop,
      Slice.elems_getElem? h s (1 + i) (by omega)]
    simp only [Nat.add_assoc]
  · rw [List.getElem?_eq_none (by simp [Slice.elems_length]; omega),
      List.getElem?_eq_none (by simp [Slice.elems_length]; omega)]

/-- Indexing the first element of a slice that shows `x :: xs`. -/
theorem Slice.index_zero {S : Type} [Inhabited S] (h : Heap S) (s : Slice) (x : S)
    (xs : List S) (hx : s.elems h = x :: xs) : s.index h 0 = .ok x := by
  have hlen : s.len = xs.length + 1 := by
    rw [← Slice.elems_length h s, hx]; simp
  have h0 := Slice.elems_getElem? h s 0 (by omega)
  rw [hx] at h0
  simp only [List.getElem?_cons_zero, Option.some.injEq, Nat.add_zero] at h0
  simp [Slice.index, hlen, h0]

/-- The calls of `Fatal`, read off the elements of the sink slice: nothing for no sink,
else an error call on each sink after the first and then the fatal call on the first. -/
theorem Logger.Fatal_eq {S Any : Type} [Inhabited S] (h : Heap S) (l : Logger) (msg : String)
    (args : List (List (LoggerArgument Any))) (t : Calls S Any) :
    l.Fatal h msg args t = .ok
      (match l.Loggers.elems h with
       | [] => t
       | first :: rest =>
         t ++ rest.map (fun s => SinkCall.log .Error s msg args) ++
           [SinkCall.log .Fatal first msg args]) := by
  have hlen := Slice.elems_length h l.Loggers
  have hrest := Slice.elems_sliceFrom_one h l.Loggers
  cases hx : l.Loggers.elems h with
  | nil =>
    rw [hx] at hlen
    have h0 : l.Loggers.len = 0 := by simpa using hlen.symm
    simp [Logger.Fatal, h0]
    rfl
  | cons first rest =>
    rw [hx] at hlen hrest
    have hl : l.Loggers.len = rest.length + 1 := by simpa using hlen.symm
    have hidx := Slice.index_zero h l.Loggers first rest hx
    by_cases h1 : l.Loggers.len > 1
    · have hs : l.Loggers.sliceFrom 1 =
          .ok ⟨l.Loggers.arr, l.Loggers.off + 1, l.Loggers.len - 1, l.Loggers.cap - 1⟩ := by
        simp [Slice.sliceFrom]; omega
      simp only [Logger.Fatal, h1, if_true, hs, hidx, show l.Loggers.len > 0 by omega]
      simp only [bind, Except.bind, pure, Except.pure, hrest, List.drop_one, List.tail_cons]
      rw [forRange_emit (fun s => SinkCall.log Severity.Error s msg args) rest t]
      simp [emit]
    · have hr : rest = [] := by
        apply List.eq_nil_of_length_eq_zero; omega
      subst hr
      simp only [Logger.Fatal, h1, if_false, hidx, show l.Loggers.len > 0 by omega, if_true]
      simp [bind, Except.bind, pure, Except.pure, emit]

/-! ## Lemmas on `append` -/

theorem getD_set_list {α : Type} (l : List α) (i j : Nat) (a d : α) :
    (l.set i a).getD j d = if i = j ∧ i < l.length then a else l.getD j d := by
  simp only [List.getD_eq_getElem?_getD, List.getElem?_set]
  by_cases hij : i = j
  · subst hij
    by_cases hi : i < l.length
    · simp [hi]
    · simp [hi, List.getElem?_eq_none (Nat.le_of_not_lt hi)]
  · simp [hij]

/-- Writing cell `k` of array `a` changes that cell only. -/
theorem Heap.cell_set {S : Type} [Inhabited S] (h : Heap S) (a k : Nat) (x : S) (a' k' : Nat) :
    Heap.cell (h.set a ((h.getD a []).set k x)) a' k' =
      if a = a' ∧ k = k' ∧ a < h.length ∧ k < (h.getD a []).length then x
      else h.cell a' k' := by
  unfold Heap.cell
  rw [getD_set_list h a a' _ []]
  by_cases haa : a = a'
  · subst haa
    by_cases ha : a < h.length
    · simp only [ha, and_self, if_true, true_and, and_true]
      rw [getD_set_list]
    · simp [ha]
  · simp [haa]

/-- Allocating a new array leaves the cells of the arrays already there as they are. -/
theorem Heap.cell_alloc_old {S : Type} [Inhabited S] (h : Heap S) (new : List S) (a k : Nat)
    (ha : a < h.length) : Heap.cell (h ++ [new]) a k = h.cell a k := by
  unfold Heap.cell
  rw [List.getD_append h [new] [] a ha]

/-- The cells of a newly allocated array. -/
theorem Heap.cell_alloc_new {S : Type} [Inhabited S] (h : Heap S) (new : List S) (k : Nat) :
    Heap.cell (h ++ [new]) h.length k = new.getD k default := by
  unfold Heap.cell
  rw [List.getD_append_right h [new] [] h.length (Nat.le_refl _)]
  simp

/-- After `append(s, x)` the returned slice shows the elements of `s` followed by `x`. -/
theorem goAppend_elems {S : Type} [Inhabited S] (grow : Nat → Nat) (h : Heap S) (s : Slice)
    (x : S) (hwf : s.WF h) :
    (goAppend grow h s x).2.elems (goAppend grow h s x).1 = s.elems h ++ [x] := by
  apply List.ext_getElem?
  intro i
  by_cases hcap : s.len < s.cap
  · obtain ⟨harr, hcov⟩ := hwf.2 (by omega)
    simp only [goAppend, hcap, if_true]
    rcases Nat.lt_trichotomy i s.len with hi | hi | hi
    · rw [Slice.elems_getElem? _ _ i (by simp; omega),
        List.getElem?_append_left (by simp [Slice.elems_length]; omega),
        Slice.elems_getElem? h s i hi, Heap.cell_set]
      simp; intro _ hk; omega
    · subst hi
      rw [Slice.elems_getElem? _ _ s.len (by simp),
        List.getElem?_append_right (by simp [Slice.elems_length]), Heap.cell_set,
        if_pos ⟨rfl, rfl, harr, by omega⟩]
      simp [Slice.elems_length]
    · rw [List.getElem?_eq_none (by simp [Slice.elems_length]; omega),
        List.getElem?_eq_none (by simp [Slice.elems_length]; omega)]
  · simp only [goAppend, hcap, if_false]
    by_cases hi : i < s.len + 1
    · rw [Slice.elems_getElem? _ _ i (by simpa using hi), Heap.cell_alloc_new]
      simp only [Nat.zero_add, List.getD_eq_getElem?_getD]
      have hlt : i < (s.elems h ++ [x]).length := by simp [Slice.elems_length]; omega
      have happ : (s.elems h ++ x :: List.replicate
          (max (grow s.cap) (s.len + 1) - (s.len + 1)) default) =
          (s.elems h ++ [x]) ++ List.replicate
            (max (grow s.cap) (s.len + 1) - (s.len + 1)) default := by simp
      rw [happ, List.getElem?_append_left hlt, List.getElem?_eq_getElem hlt]
      simp
    · rw [List.getElem?_eq_none (by simp [Slice.elems_length]; omega),
        List.getElem?_eq_none (by simp [Slice.elems_length]; omega)]

/-- After `append(s, x)` the slice `s` itself still shows the same elements. -/
theorem goAppend_frame {S : Type} [Inhabited S] (grow : Nat → Nat) (h : Heap S) (s : Slice)
    (x : S) (hwf : s.WF h) : s.elems (goAppend grow h s x).1 = s.elems h := by
  apply Slice.elems_congr _ _ s s rfl
  intro i hi
  by_cases hcap : s.len < s.cap
  · simp only [goAppend, hcap, if_true]
    rw [Heap.cell_set]
    simp; intro _ hk; omega
  · simp only [goAppend, hcap, if_false]
    exact Heap.cell_alloc_old h _ _ _ (hwf.2 (by have := hwf.1; omega)).1

/-- The slice returned by `append` is backed by the heap it returns. -/
theorem goAppend_WF {S : Type} [Inhabited S] (grow : Nat → Nat) (h : Heap S) (s : Slice)
    (x : S) (hwf : s.WF h) : (goAppend grow h s x).2.WF (goAppend grow h s x).1 := by
  by_cases hcap : s.len < s.cap
  · obtain ⟨harr, hcov⟩ := hwf.2 (by omega)
    simp only [goAppend, hcap, if_true, Slice.WF]
    refine ⟨by omega, fun _ => ⟨by simpa using harr, ?_⟩⟩
    rw [getD_set_list, if_pos ⟨rfl, harr⟩, List.length_set]
    exact hcov
  · simp only [goAppend, hcap, if_false, Slice.WF]
    refine ⟨by omega, fun _ => ⟨by simp, ?_⟩⟩
    rw [List.getD_append_right h _ [] h.length (Nat.le_refl _)]
    simp [Slice.elems_length]
    omega

theorem target_mem_of_mem_map {S Any : Type} (f : S → SinkCall S Any)
    (hf : ∀ x, (f x).target = x) (xs : List S) (c : SinkCall S Any) (hc : c ∈ xs.map f) :
    c.target ∈ xs := by
  obtain ⟨x, hx, rfl⟩ := List.mem_map.mp hc
  rw [hf x]; exact hx

/-! ## Claims -/

/-- C1: for an argument sequence of even length `2 * n`, `Args` returns without failure
exactly `n` fields; field `i` has as key the display string of `args[2 * i]` and as value
`args[2 * i + 1]` itself, in input order (so equal keys give separate fields). -/
theorem Args_even {Any : Type} (l : Logger) (Sprint : Any → String) (args : List Any) (n : Nat)
    (hlen : args.length = 2 * n) :
    ∃ out, l.Args Sprint args = .ok out ∧ out.length = n ∧
      ∀ i, i < n → ∃ k v, args[2 * i]? = some k ∧ args[2 * i + 1]? = some v ∧
        out[i]? = some ⟨Sprint k, v⟩ := by
  obtain ⟨out, hrun, hl, hf⟩ := Args.loop_even Sprint args n 0 [] (by omega)
  refine ⟨out, by simpa [Logger.Args] using hrun, hl, ?_⟩
  intro i hi
  simpa using hf i hi

/-- C1, at sample inputs: four arguments give two fields, two equal keys give two fields, and
no argument gives no field. -/
theorem Args_even_witness :
    ([Val.str "retries", Val.int 3, Val.str "host", Val.str "db1"].length = 2 * 2 ∧
      ∃ out, emptyLogger.Args Val.sprint
          [Val.str "retries", Val.int 3, Val.str "host", Val.str "db1"] = .ok out ∧
        out.length = 2 ∧
        ∀ i, i < 2 → ∃ k v,
          [Val.str "retries", Val.int 3, Val.str "host", Val.str "db1"][2 * i]? = some k ∧
          [Val.str "retries", Val.int 3, Val.str "host", Val.str "db1"][2 * i + 1]? = some v ∧
          out[i]? = some ⟨Val.sprint k, v⟩) ∧
    emptyLogger.Args Val.sprint [Val.str "retries", Val.int 3, Val.str "host", Val.str "db1"] =
      .ok [⟨"retries", Val.int 3⟩, ⟨"host", Val.str "db1"⟩] ∧
    emptyLogger.Args Val.sprint [Val.str "k", Val.int 1, Val.str "k", Val.int 2] =
      .ok [⟨"k", Val.int 1⟩, ⟨"k", Val.int 2⟩] ∧
    emptyLogger.Args Val.sprint ([] : List Val) = .ok [] :=
  ⟨⟨by decide, Args_even emptyLogger Val.sprint _ 2 (by decide)⟩,
    by simp [Logger.Args, Args.loop_step, Args.loop_done, Val.sprint],
    by simp [Logger.Args, Args.loop_step, Args.loop_done, Val.sprint],
    by simp [Logger.Args, Args.loop_done]⟩

/-- C2, on the code: `Args("onlyKey")` does not return the empty sequence; reading the value
that should follow the key fails with an index out of range. -/
theorem Args_onlyKey_fails :
    emptyLogger.Args Val.sprint [Val.str "onlyKey"] = .error (.indexOutOfRange 1 1) ∧
      emptyLogger.Args Val.sprint [Val.str "onlyKey"] ≠ .ok [] := by
  have h : emptyLogger.Args Val.sprint [Val.str "onlyKey"] = .error (.indexOutOfRange 1 1) := by
    simp [Logger.Args, Args.loop_last]
  exact ⟨h, by rw [h]; simp⟩

/-- C3: each of `Trace`, `Debug`, `Info`, `Warn`, `Error` adds to the calls made so far
exactly one call per sink, in the order of the sink slice, on the entry point of its own
severity, with the message and the argument groups it was given. -/
theorem level_methods_calls {S Any : Type} [Inhabited S] (h : Heap S) (l : Logger)
    (msg : String) (args : List (List (LoggerArgument Any))) (t : Calls S Any) :
    l.Trace h msg args t =
        t ++ (l.Loggers.elems h).map (fun s => SinkCall.log .Trace s msg args) ∧
      l.Debug h msg args t =
        t ++ (l.Loggers.elems h).map (fun s => SinkCall.log .Debug s msg args) ∧
      l.Info h msg args t =
        t ++ (l.Loggers.elems h).map (fun s => SinkCall.log .Info s msg args) ∧
      l.Warn h msg args t =
        t ++ (l.Loggers.elems h).map (fun s => SinkCall.log .Warn s msg args) ∧
      l.Error h msg args t =
        t ++ (l.Loggers.elems h).map (fun s => SinkCall.log .Error s msg args) :=
  ⟨forRange_emit _ _ t, forRange_emit _ _ t, forRange_emit _ _ t, forRange_emit _ _ t,
    forRange_emit _ _ t⟩

/-- C4: on a logger whose sinks are `first :: rest`, `Fatal` returns after exactly these
calls: an error call on each sink of `rest`, in order, and then, last, the fatal call on
`first`. -/
theorem Fatal_calls {S Any : Type} [Inhabited S] (h : Heap S) (l : Logger) (first : S)
    (rest : List S) (msg : String) (args : List (List (LoggerArgument Any)))
    (hx : l.Loggers.elems h = first :: rest) :
    l.Fatal h msg args [] = .ok
      (rest.map (fun s => SinkCall.log .Error s msg args) ++
        [SinkCall.log .Fatal first msg args]) := by
  rw [Logger.Fatal_eq, hx]
  simp

/-- C4, at the sinks `A`, `B`, `C`: the calls are `B.Error`, `C.Error`, `A.Fatal`. -/
theorem Fatal_calls_witness :
    loggerABC.Loggers.elems heapABC = "A" :: ["B", "C"] ∧
      loggerABC.Fatal heapABC "boom" ([] : List (List (LoggerArgument Val))) [] = .ok
        ((["B", "C"].map (fun s => SinkCall.log .Error s "boom" [])) ++
          [SinkCall.log .Fatal "A" "boom" []]) :=
  ⟨by decide, Fatal_calls heapABC loggerABC "A" ["B", "C"] "boom" [] (by decide)⟩

/-- C5: on a logger without sinks `Fatal` returns normally, with no failure, and makes no
sink call: the calls made so far are all there is. -/
theorem Fatal_no_sinks {S Any : Type} [Inhabited S] (h : Heap S) (l : Logger) (msg : String)
    (args : List (List (LoggerArgument Any))) (t : Calls S Any)
    (hx : l.Loggers.elems h = []) : l.Fatal h msg args t = .ok t := by
  rw [Logger.Fatal_eq, hx]

/-- C5, at the logger with the `nil` slice. -/
theorem Fatal_no_sinks_witness :
    emptyLogger.Loggers.elems heapABC = [] ∧
      emptyLogger.Fatal heapABC "boom" ([] : List (List (LoggerArgument Val))) [] = .ok [] :=
  ⟨by decide, Fatal_no_sinks heapABC emptyLogger "boom" [] [] (by decide)⟩

/-- C6: `WithCustomLogger(s)` returns a logger whose sinks are those of the receiver followed
by `s` (one more, the old ones first and in the same order), with the receiver's `Level` and
`ShowCaller`. -/
theorem WithCustomLogger_appends {S : Type} [Inhabited S] (grow : Nat → Nat) (h : Heap S)
    (l : Logger) (s : S) (hwf : l.Loggers.WF h) :
    (l.WithCustomLogger grow h s).2.Loggers.elems (l.WithCustomLogger grow h s).1 =
        l.Loggers.elems h ++ [s] ∧
      ((l.WithCustomLogger grow h s).2.Loggers.elems (l.WithCustomLogger grow h s).1).length =
        (l.Loggers.elems h).length + 1 ∧
      (l.WithCustomLogger grow h s).2.Level = l.Level ∧
      (l.WithCustomLogger grow h s).2.ShowCaller = l.ShowCaller := by
  have he := goAppend_elems grow h l.Loggers s hwf
  refine ⟨he, ?_, rfl, rfl⟩
  simp only [Logger.WithCustomLogger]
  rw [he]
  simp

/-- C6, at sample loggers: a sink added where the array has room, and one added to the
logger without sinks. -/
theorem WithCustomLogger_appends_witness :
    loggerABC.Loggers.WF heapABC ∧
      ((loggerABC.WithCustomLogger double heapABC "D").2.Loggers.elems
          (loggerABC.WithCustomLogger double heapABC "D").1 =
        loggerABC.Loggers.elems heapABC ++ ["D"] ∧
      ((loggerABC.WithCustomLogger double heapABC "D").2.Loggers.elems
          (loggerABC.WithCustomLogger double heapABC "D").1).length =
        (loggerABC.Loggers.elems heapABC).length + 1 ∧
      (loggerABC.WithCustomLogger double heapABC "D").2.Level = loggerABC.Level ∧
      (loggerABC.WithCustomLogger double heapABC "D").2.ShowCaller = loggerABC.ShowCaller) ∧
      (emptyLogger.WithCustomLogger double ([] : Heap String) "A").2.Loggers.elems
          (emptyLogger.WithCustomLogger double ([] : Heap String) "A").1 = ["A"] :=
  ⟨by decide, WithCustomLogger_appends double heapABC loggerABC "D" (by decide), by decide⟩

/-- C7: `WithCustomLogger(s)` leaves the sinks seen through its receiver as they were, so
every level method and `Fatal` on the receiver behaves afterwards as before; and when `s` is
not among the receiver's sinks, none of their calls is made on `s`. -/
theorem WithCustomLogger_receiver_kept {S Any : Type} [Inhabited S] (grow : Nat → Nat)
    (h : Heap S) (l1 : Logger) (s : S) (hwf : l1.Loggers.WF h) :
    l1.Loggers.elems (l1.WithCustomLogger grow h s).1 = l1.Loggers.elems h ∧
      (∀ (msg : String) (args : List (List (LoggerArgument Any))) (t : Calls S Any),
        l1.Trace (l1.WithCustomLogger grow h s).1 msg args t = l1.Trace h msg args t ∧
        l1.Debug (l1.WithCustomLogger grow h s).1 msg args t = l1.Debug h msg args t ∧
        l1.Info (l1.WithCustomLogger grow h s).1 msg args t = l1.Info h msg args t ∧
        l1.Warn (l1.WithCustomLogger grow h s).1 msg args t = l1.Warn h msg args t ∧
        l1.Error (l1.WithCustomLogger grow h s).1 msg args t = l1.Error h msg args t ∧
        l1.Fatal (l1.WithCustomLogger grow h s).1 msg args t = l1.Fatal h msg args t) ∧
      (s ∉ l1.Loggers.elems h →
        ∀ (msg : String) (args : List (List (LoggerArgument Any))) (c : SinkCall S Any),
          (c ∈ l1.Trace (l1.WithCustomLogger grow h s).1 msg args [] → c.target ≠ s) ∧
          (c ∈ l1.Debug (l1.WithCustomLogger grow h s).1 msg args [] → c.target ≠ s) ∧
          (c ∈ l1.Info (l1.WithCustomLogger grow h s).1 msg args [] → c.target ≠ s) ∧
          (c ∈ l1.Warn (l1.WithCustomLogger grow h s).1 msg args [] → c.target ≠ s) ∧
          (c ∈ l1.Error (l1.WithCustomLogger grow h s).1 msg args [] → c.target ≠ s) ∧
          (∀ tr, l1.Fatal (l1.WithCustomLogger grow h s).1 msg args [] = .ok tr →
            c ∈ tr → c.target ≠ s)) := by
  have he : l1.Loggers.elems (l1.WithCustomLogger grow h s).1 = l1.Loggers.elems h :=
    goAppend_frame grow h l1.Loggers s hwf
  refine ⟨he, ?_, ?_⟩
  · intro msg args t
    refine ⟨?_, ?_, ?_, ?_, ?_, ?_⟩
    · simp only [Logger.Trace, he]
    · simp only [Logger.Debug, he]
    · simp only [Logger.Info, he]
    · simp only [Logger.Warn, he]
    · simp only [Logger.Error, he]
    · rw [Logger.Fatal_eq, Logger.Fatal_eq, he]
  · intro hs msg args c
    have key : ∀ sev : Severity,
        c ∈ (l1.Loggers.elems h).map (fun x => SinkCall.log sev x msg args) →
          c.target ≠ s := by
      intro sev hc heq
      have hm := target_mem_of_mem_map (fun x => SinkCall.log sev x msg args)
        (fun _ => rfl) _ c hc
      exact hs (heq ▸ hm)
    refine ⟨?_, ?_, ?_, ?_, ?_, ?_⟩
    · intro hc; apply key .Trace; simpa [Logger.Trace, he, forRange_emit] using hc
    · intro hc; apply key .Debug; simpa [Logger.Debug, he, forRange_emit] using hc
    · intro hc; apply key .Info; simpa [Logger.Info, he, forRange_emit] using hc
    · intro hc; apply key .Warn; simpa [Logger.Warn, he, forRange_emit] using hc
    · intro hc; apply key .Error; simpa [Logger.Error, he, forRange_emit] using hc
    · intro tr htr hc
      rw [Logger.Fatal_eq, he] at htr
      cases hx : l1.Loggers.elems h with
      | nil =>
        rw [hx] at htr
        simp only [Except.ok.injEq] at htr
        subst htr
        simp at hc
      | cons first rest =>
        rw [hx] at htr hs
        simp only [Except.ok.injEq] at htr
        subst htr
        simp only [List.nil_append, List.mem_append, List.mem_map, List.mem_singleton] at hc
        rcases hc with ⟨x, hxm, rfl⟩ | rfl
        · intro heq
          exact hs (heq ▸ List.mem_cons_of_mem _ hxm)
        · intro heq
          exact hs (heq ▸ List.mem_cons_self _ _)

/-- C7, at the logger over `A`, `B`, `C` with room for one more sink: adding `D` writes into
the shared array, and the receiver still shows `A`, `B`, `C`. -/
theorem WithCustomLogger_receiver_kept_witness :
    loggerABC.Loggers.WF heapABC ∧
      (loggerABC.WithCustomLogger double heapABC "D").1 = [["A", "B", "C", "D"]] ∧
      loggerABC.Loggers.elems (loggerABC.WithCustomLogger double heapABC "D").1 =
        ["A", "B", "C"] ∧
      loggerABC.Info (loggerABC.WithCustomLogger double heapABC "D").1 "m"
          ([] : List (List (LoggerArgument Val))) [] =
        loggerABC.Info heapABC "m" [] [] :=
  ⟨by decide, by decide,
    (@WithCustomLogger_receiver_kept String Val _ double heapABC loggerABC "D"
      (by decide)).1.trans (by decide),
    ((@WithCustomLogger_receiver_kept String Val _ double heapABC loggerABC "D"
      (by decide)).2.1 "m" [] []).2.2.1⟩

/-- C8: `WithLevel(x)` adds to the calls made so far exactly one call `WithLevel(x)` per sink,
in the order of the sink slice, and nothing else (so nothing at all without sinks). -/
theorem WithLevel_calls {S Any : Type} [Inhabited S] (h : Heap S) (l : Logger)
    (level : LogLevel) (t : Calls S Any) :
    (l.WithLevel h level t).1 =
      t ++ (l.Loggers.elems h).map (fun s => SinkCall.withLevel s level) :=
  forRange_emit _ _ t

/-- C9, on the code: the logger returned by `WithLevel(x)` is the receiver's copy with its
`Level` untouched; with `Level` 3 and `x = 1` the returned `Level` is 3, not 1. -/
theorem WithLevel_keeps_Level :
    (∀ (h : Heap String) (l : Logger) (level : LogLevel) (t : Calls String Val),
        (l.WithLevel h level t).2.Level = l.Level) ∧
      (loggerABC.WithLevel heapABC 1 ([] : Calls String Val)).2.Level = 3 ∧
      (loggerABC.WithLevel heapABC 1 ([] : Calls String Val)).2.Level ≠ 1 :=
  ⟨fun _ _ _ _ => rfl, by decide, by decide⟩

/-- The keys of the fields built by `ArgsFromMap` are the keys visited. -/
theorem ArgsFromMap_eq_map {Any : Type} (l : Logger) (visit : List (String × Any)) :
    l.ArgsFromMap visit = visit.map (fun kv => (⟨kv.1, kv.2⟩ : LoggerArgument Any)) := by
  have h := forRange_append (fun kv : String × Any => (⟨kv.1, kv.2⟩ : LoggerArgument Any))
    visit []
  simpa [Logger.ArgsFromMap] using h

/-- C10: whatever order `range` visits the map in, `ArgsFromMap` returns as many fields as
the map has entries, the fields are the entries up to order, every entry is the field at
exactly one position, and the empty map gives no field. -/
theorem ArgsFromMap_entries {Any : Type} (l : Logger) (m : GoMap Any)
    (visit : List (String × Any)) (hv : m.Visits visit) :
    (l.ArgsFromMap visit).length = m.entries.length ∧
      (l.ArgsFromMap visit).Perm
        (m.entries.map (fun kv => (⟨kv.1, kv.2⟩ : LoggerArgument Any))) ∧
      (∀ (k : String) (v : Any), (k, v) ∈ m.entries →
        ∃ i, (l.ArgsFromMap visit)[i]? = some (LoggerArgument.mk k v) ∧
          ∀ (j : Nat) (f : LoggerArgument Any), (l.ArgsFromMap visit)[j]? = some f →
            f.Key = k → j = i ∧ f.Value = v) ∧
      (m.entries = [] → l.ArgsFromMap visit = []) := by
  rw [ArgsFromMap_eq_map]
  have hperm : visit.Perm m.entries := hv
  have hkeys : (visit.map Prod.fst).Nodup :=
    ((hperm.map Prod.fst).nodup_iff).mpr m.nodup
  refine ⟨by simp [hperm.length_eq], hperm.map _, ?_, ?_⟩
  · intro k v hkv
    have hmem : (k, v) ∈ visit := hperm.mem_iff.mpr hkv
    obtain ⟨i, hi⟩ := List.mem_iff_getElem?.mp hmem
    refine ⟨i, by simp [List.getElem?_map, hi], ?_⟩
    intro j f hj hk
    rw [List.getElem?_map] at hj
    obtain ⟨kv, hkvj, rfl⟩ := Option.map_eq_some'.mp hj
    obtain ⟨hjl, hje⟩ := List.getElem?_eq_some.mp hkvj
    obtain ⟨hil, hie⟩ := List.getElem?_eq_some.mp hi
    have hji : j = i := by
      have hjl' : j < (visit.map Prod.fst).length := by simpa using hjl
      have hil' : i < (visit.map Prod.fst).length := by simpa using hil
      apply (@List.Nodup.getElem_inj_iff _ _ hkeys j hjl' i hil').mp
      simp only [List.getElem_map, hje, hie]
      exact hk
    subst hji
    refine ⟨rfl, ?_⟩
    have : kv = (k, v) := by rw [← hje, ← hie]
    simp [this]
  · intro he
    rw [he] at hperm
    simp [hperm.eq_nil]

/-- C10, at the sample map visited from its last entry to its first. -/
theorem ArgsFromMap_entries_witness :
    mapAB.Visits [("b", Val.str "x"), ("a", Val.int 1)] ∧
      emptyLogger.ArgsFromMap [("b", Val.str "x"), ("a", Val.int 1)] =
        [⟨"b", Val.str "x"⟩, ⟨"a", Val.int 1⟩] ∧
      (emptyLogger.ArgsFromMap [("b", Val.str "x"), ("a", Val.int 1)]).length =
        mapAB.entries.length :=
  ⟨List.Perm.swap _ _ _, by decide,
    (ArgsFromMap_entries emptyLogger mapAB [("b", Val.str "x"), ("a", Val.int 1)]
      (List.Perm.swap _ _ _)).1⟩

/-! ## Lemmas on chains of configuration calls -/

/-- One configuration call keeps the sink slice backed by the heap and shows the sinks it
showed, followed by the sink it adds, if any. -/
theorem Mutator.apply_sinks {S Any : Type} [Inhabited S] (grow : Nat → Nat)
    (st : Heap S × Logger × Calls S Any) (op : Mutator S) (hwf : st.2.1.Loggers.WF st.1) :
    (Mutator.apply grow st op).2.1.Loggers.WF (Mutator.apply grow st op).1 ∧
      (Mutator.apply grow st op).2.1.Loggers.elems (Mutator.apply grow st op).1 =
        st.2.1.Loggers.elems st.1 ++ (Mutator.added op).toList := by
  cases op with
  | WithCustomLogger logger =>
    exact ⟨goAppend_WF grow st.1 st.2.1.Loggers logger hwf,
      goAppend_elems grow st.1 st.2.1.Loggers logger hwf⟩
  | WithLevel level =>
    refine ⟨hwf, ?_⟩
    simp [Mutator.apply, Mutator.added, Logger.WithLevel]
  | WithCaller b =>
    refine ⟨hwf, ?_⟩
    simp [Mutator.apply, Mutator.added, Logger.WithCaller]

/-- A chain of configuration calls shows the sinks of its first logger followed by the sinks
added along the chain, in the order of the calls. -/
theorem chain_sinks {S Any : Type} [Inhabited S] (grow : Nat → Nat) (ops : List (Mutator S)) :
    ∀ st : Heap S × Logger × Calls S Any, st.2.1.Loggers.WF st.1 →
      (chain grow st ops).2.1.Loggers.WF (chain grow st ops).1 ∧
        (chain grow st ops).2.1.Loggers.elems (chain grow st ops).1 =
          st.2.1.Loggers.elems st.1 ++ ops.filterMap Mutator.added := by
  induction ops with
  | nil => intro st hwf; exact ⟨hwf, by simp [chain]⟩
  | cons op ops ih =>
    intro st hwf
    obtain ⟨hwf1, he1⟩ := Mutator.apply_sinks grow st op hwf
    obtain ⟨hwf2, he2⟩ := ih (Mutator.apply grow st op) hwf1
    simp only [chain, List.foldl_cons] at hwf2 he2 ⊢
    refine ⟨hwf2, ?_⟩
    rw [he2, he1]
    cases hop : Mutator.added op <;> simp [List.filterMap_cons, hop]

theorem start_WF (S Any : Type) : (start S Any).2.1.Loggers.WF (start S Any).1 := by
  simp [start, emptyLogger, Slice.nil, Slice.WF]

theorem start_elems (S Any : Type) [Inhabited S] :
    (start S Any).2.1.Loggers.elems (start S Any).1 = [] := by
  simp [start, emptyLogger, Slice.nil, Slice.elems]

/-! ## Claims, continued -/

/-- C11: `WithCaller(b...)` adds to the calls made so far exactly one call `WithCaller(b...)`
per sink, in the order of the sink slice, each with the flags `b` it was given, and nothing
else. -/
theorem WithCaller_calls {S Any : Type} [Inhabited S] (h : Heap S) (l : Logger)
    (b : List Bool) (t : Calls S Any) :
    (l.WithCaller h b t).1 =
      t ++ (l.Loggers.elems h).map (fun s => SinkCall.withCaller s b) :=
  forRange_emit _ _ t

/-- C12: `WithLevel` and `WithCaller` return a logger with exactly the sinks of the receiver,
`WithCustomLogger` one whose sinks start with the receiver's; and the logger reached from the
logger without sinks by a chain of configuration calls shows the sinks added along the
chain, in the order they were added. -/
theorem mutators_keep_order {S Any : Type} [Inhabited S] (grow : Nat → Nat) (h : Heap S)
    (l : Logger) (hwf : l.Loggers.WF h) :
    (∀ (x : LogLevel) (t : Calls S Any),
        (l.WithLevel h x t).2.Loggers.elems h = l.Loggers.elems h) ∧
      (∀ (b : List Bool) (t : Calls S Any),
        (l.WithCaller h b t).2.Loggers.elems h = l.Loggers.elems h) ∧
      (∀ s : S, l.Loggers.elems h <+:
        (l.WithCustomLogger grow h s).2.Loggers.elems (l.WithCustomLogger grow h s).1) ∧
      (∀ ops : List (Mutator S),
        (chain grow (start S Any) ops).2.1.Loggers.elems (chain grow (start S Any) ops).1 =
          ops.filterMap Mutator.added) := by
  refine ⟨fun _ _ => rfl, fun _ _ => rfl, ?_, ?_⟩
  · intro s
    exact ⟨[s], (goAppend_elems grow h l.Loggers s hwf).symm⟩
  · intro ops
    have hc := (chain_sinks grow ops (start S Any) (start_WF S Any)).2
    rw [hc, start_elems]
    simp

/-- C12, at the logger over `A`, `B`, `C` and at a chain of five calls from the logger
without sinks. -/
theorem mutators_keep_order_witness :
    loggerABC.Loggers.WF heapABC ∧
      loggerABC.Loggers.elems heapABC <+:
        (loggerABC.WithCustomLogger double heapABC "D").2.Loggers.elems
          (loggerABC.WithCustomLogger double heapABC "D").1 ∧
      (chain double (start String Val)
          [.WithCustomLogger "A", .WithLevel 2, .WithCustomLogger "B", .WithCaller [true],
            .WithCustomLogger "C"]).2.1.Loggers.elems
        (chain double (start String Val)
          [.WithCustomLogger "A", .WithLevel 2, .WithCustomLogger "B", .WithCaller [true],
            .WithCustomLogger "C"]).1 = ["A", "B", "C"] :=
  ⟨by decide,
    (@mutators_keep_order String Val _ double heapABC loggerABC (by decide)).2.2.1 "D",
    by decide⟩

/-- A `range` loop whose body leaves the state as it is leaves the state as it is. -/
theorem forRange_skip {α σ : Type} (body : α → σ → σ) (hbody : ∀ x st, body x st = st)
    (xs : List α) : ∀ st : σ, forRange xs body st = st := by
  induction xs with
  | nil => intro st; rfl
  | cons x xs ih =>
    intro st
    have h := ih (body x st)
    simp only [forRange, List.foldl_cons] at h ⊢
    rw [h, hbody]

/-- C13, on the code: with `L` built by three additions (three sinks, capacity four),
`L2 = L.WithCustomLogger(D)` shows `A, B, C, D`, but after `L3 = L.WithCustomLogger(E)` the
same `L2` shows `A, B, C, E`: the second `append` wrote into the array `L2` shares, and a log
call on `L2` now reaches `E` and no longer `D`. -/
theorem WithCustomLogger_overwrites_earlier :
    stateL.2.1.Loggers = ⟨2, 0, 3, 4⟩ ∧
      stateL.2.1.Loggers.elems stateL.1 = ["A", "B", "C"] ∧
      afterD.2.Loggers.elems afterD.1 = ["A", "B", "C", "D"] ∧
      afterE.2.Loggers.elems afterE.1 = ["A", "B", "C", "E"] ∧
      afterD.2.Loggers.elems afterE.1 = ["A", "B", "C", "E"] ∧
      afterD.2.Loggers.elems afterE.1 ≠ stateL.2.1.Loggers.elems stateL.1 ++ ["D"] ∧
      afterD.2.Info afterE.1 "m" ([] : List (List (LoggerArgument Val))) [] =
        [.log .Info "A" "m" [], .log .Info "B" "m" [], .log .Info "C" "m" [],
          .log .Info "E" "m" []] := by
  decide

/-- C14, on the code: run on the sinks in memory, `WithLevel(x)` leaves every sink as it
was, since each sink's own `WithLevel` sets the level on a copy that the loop drops; with
sinks at level 3, after `WithLevel(1)` the sink `A` still has level 3, not 1. -/
theorem WithLevel_leaves_sinks :
    (∀ (h : Heap String) (l : Logger) (level : LogLevel) (mem : String → PtermLogger),
        (Logger.WithLevel.onSinks h l level mem).1 = mem) ∧
      ((Logger.WithLevel.onSinks heapABC loggerABC 1 memAll3).1 "A").Level = 3 ∧
      ((Logger.WithLevel.onSinks heapABC loggerABC 1 memAll3).1 "A").Level ≠ 1 := by
  have hgen : ∀ (h : Heap String) (l : Logger) (level : LogLevel)
      (mem : String → PtermLogger), (Logger.WithLevel.onSinks h l level mem).1 = mem :=
    fun h l level mem => forRange_skip _ (fun _ _ => rfl) _ mem
  refine ⟨hgen, ?_, ?_⟩
  · rw [hgen]; decide
  · rw [hgen]; decide

/-- C15: the calls of a level method and of `Fatal` are fixed by the sinks, the message and
the argument groups: two loggers showing the same sinks make the same calls whatever their
`Level` and `ShowCaller` are, and every sink shown receives its call (from `Fatal` an error
call or the fatal call). -/
theorem no_level_filter {S Any : Type} [Inhabited S] (h1 h2 : Heap S) (l1 l2 : Logger)
    (msg : String) (args : List (List (LoggerArgument Any))) (t : Calls S Any)
    (hs : l1.Loggers.elems h1 = l2.Loggers.elems h2) :
    (l1.Trace h1 msg args t = l2.Trace h2 msg args t ∧
      l1.Debug h1 msg args t = l2.Debug h2 msg args t ∧
      l1.Info h1 msg args t = l2.Info h2 msg args t ∧
      l1.Warn h1 msg args t = l2.Warn h2 msg args t ∧
      l1.Error h1 msg args t = l2.Error h2 msg args t ∧
      l1.Fatal h1 msg args t = l2.Fatal h2 msg args t) ∧
    (∀ s, s ∈ l1.Loggers.elems h1 →
      SinkCall.log .Trace s msg args ∈ l1.Trace h1 msg args t ∧
      SinkCall.log .Debug s msg args ∈ l1.Debug h1 msg args t ∧
      SinkCall.log .Info s msg args ∈ l1.Info h1 msg args t ∧
      SinkCall.log .Warn s msg args ∈ l1.Warn h1 msg args t ∧
      SinkCall.log .Error s msg args ∈ l1.Error h1 msg args t ∧
      ∃ tr, l1.Fatal h1 msg args t = .ok tr ∧
        (SinkCall.log .Error s msg args ∈ tr ∨ SinkCall.log .Fatal s msg args ∈ tr)) := by
  refine ⟨⟨?_, ?_, ?_, ?_, ?_, ?_⟩, ?_⟩
  · simp only [Logger.Trace, hs]
  · simp only [Logger.Debug, hs]
  · simp only [Logger.Info, hs]
  · simp only [Logger.Warn, hs]
  · simp only [Logger.Error, hs]
  · rw [Logger.Fatal_eq, Logger.Fatal_eq, hs]
  · intro s hmem
    have key : ∀ sev : Severity, SinkCall.log sev s msg args ∈
        t ++ (l1.Loggers.elems h1).map (fun x => SinkCall.log sev x msg args) := by
      intro sev
      exact List.mem_append_right _ (List.mem_map.mpr ⟨s, hmem, rfl⟩)
    refine ⟨?_, ?_, ?_, ?_, ?_, ?_⟩
    · simpa [Logger.Trace, forRange_emit] using key .Trace
    · simpa [Logger.Debug, forRange_emit] using key .Debug
    · simpa [Logger.Info, forRange_emit] using key .Info
    · simpa [Logger.Warn, forRange_emit] using key .Warn
    · simpa [Logger.Error, forRange_emit] using key .Error
    · refine ⟨_, Logger.Fatal_eq h1 l1 msg args t, ?_⟩
      cases hx : l1.Loggers.elems h1 with
      | nil => rw [hx] at hmem; simp at hmem
      | cons first rest =>
        rw [hx] at hmem
        rcases List.mem_cons.mp hmem with rfl | hr
        · right; simp
        · left
          simp only [List.mem_append, List.mem_map, List.mem_singleton]
          exact Or.inl (Or.inr ⟨s, hr, rfl⟩)

/-- C15, at two loggers over `A`, `B`, `C` with levels 3 and 5 and different caller flags. -/
theorem no_level_filter_witness :
    loggerABC.Loggers.elems heapABC = loggerABC5.Loggers.elems heapABC ∧
      loggerABC.Level ≠ loggerABC5.Level ∧ loggerABC.ShowCaller ≠ loggerABC5.ShowCaller ∧
      loggerABC.Trace heapABC "m" ([] : List (List (LoggerArgument Val))) [] =
        loggerABC5.Trace heapABC "m" [] [] ∧
      loggerABC.Fatal heapABC "m" ([] : List (List (LoggerArgument Val))) [] =
        loggerABC5.Fatal heapABC "m" [] [] :=
  ⟨by decide, by decide, by decide,
    (@no_level_filter String Val _ heapABC heapABC loggerABC loggerABC5 "m" [] []
      (by decide)).1.1,
    (@no_level_filter String Val _ heapABC heapABC loggerABC loggerABC5 "m" [] []
      (by decide)).1.2.2.2.2.2⟩

/-- C16: `Args` returns fields exactly when the number of arguments is even, and fails
exactly when it is odd, then with the index `len(args)` out of range for the length
`len(args)`: the read of `args[i+1]` at the last key. -/
theorem Args_fails_iff_odd {Any : Type} (l : Logger) (Sprint : Any → String)
    (args : List Any) :
    ((∃ out, l.Args Sprint args = .ok out) ↔ args.length % 2 = 0) ∧
      ((∃ e, l.Args Sprint args = .error e) ↔ args.length % 2 = 1) ∧
      (l.Args Sprint args = .error (.indexOutOfRange args.length args.length) ↔
        args.length % 2 = 1) := by
  rcases Nat.mod_two_eq_zero_or_one args.length with hpar | hpar
  · obtain ⟨out, hrun, _, _⟩ :=
      Args.loop_even Sprint args (args.length / 2) 0 [] (by omega)
    have hok : l.Args Sprint args = .ok out := by simpa [Logger.Args] using hrun
    refine ⟨⟨fun _ => hpar, fun _ => ⟨out, hok⟩⟩, ⟨?_, fun h => by omega⟩,
      ⟨?_, fun h => by omega⟩⟩
    · rintro ⟨e, he⟩; rw [hok] at he; cases he
    · intro he; rw [hok] at he; cases he
  · have herr : l.Args Sprint args = .error (.indexOutOfRange args.length args.length) := by
      simpa [Logger.Args] using
        Args.loop_odd Sprint args (args.length / 2) 0 [] (by omega)
    refine ⟨⟨?_, fun h => by omega⟩, ⟨fun _ => hpar, fun _ => ⟨_, herr⟩⟩,
      ⟨fun _ => hpar, fun _ => herr⟩⟩
    rintro ⟨out, ho⟩; rw [herr] at ho; cases ho

/-- C16, at three arguments: the third has no value after it, the read of index 3 fails. -/
theorem Args_fails_iff_odd_witness :
    emptyLogger.Args Val.sprint [Val.str "a", Val.int 1, Val.str "b"] =
      .error (.indexOutOfRange 3 3) :=
  (Args_fails_iff_odd emptyLogger Val.sprint [Val.str "a", Val.int 1, Val.str "b"]).2.2.mpr
    (by decide)

/-- The sinks added by a chain of `WithCustomLogger` calls are the sinks given. -/
theorem filterMap_added_map {S : Type} (sinks : List S) :
    (sinks.map Mutator.WithCustomLogger).filterMap Mutator.added = sinks := by
  induction sinks with
  | nil => rfl
  | cons x xs ih => simp [Mutator.added, ih]

/-- The logger built from the logger without sinks by adding `sinks` one by one shows
`sinks`. -/
theorem chain_add_sinks {S Any : Type} [Inhabited S] (grow : Nat → Nat) (sinks : List S) :
    (chain grow (start S Any) (sinks.map Mutator.WithCustomLogger)).2.1.Loggers.elems
      (chain grow (start S Any) (sinks.map Mutator.WithCustomLogger)).1 = sinks := by
  rw [(chain_sinks grow _ (start S Any) (start_WF S Any)).2, start_elems,
    filterMap_added_map]
  simp

/-- C17: for each of `Trace`, `Debug`, `Info`, `Warn`, `Error`, the calls of the method on
`L.WithCustomLogger(s)` are the calls of the method on `L` followed by the one call on `s`;
and on the logger built from the logger without sinks by adding `sinks` one by one, the calls
are one per sink of `sinks`, in that order. -/
theorem fanout_distributes {S Any : Type} [Inhabited S] (grow : Nat → Nat) (h : Heap S)
    (l : Logger) (s : S) (msg : String) (args : List (List (LoggerArgument Any)))
    (hwf : l.Loggers.WF h) :
    ((l.WithCustomLogger grow h s).2.Trace (l.WithCustomLogger grow h s).1 msg args [] =
        l.Trace h msg args [] ++ [SinkCall.log .Trace s msg args] ∧
      (l.WithCustomLogger grow h s).2.Debug (l.WithCustomLogger grow h s).1 msg args [] =
        l.Debug h msg args [] ++ [SinkCall.log .Debug s msg args] ∧
      (l.WithCustomLogger grow h s).2.Info (l.WithCustomLogger grow h s).1 msg args [] =
        l.Info h msg args [] ++ [SinkCall.log .Info s msg args] ∧
      (l.WithCustomLogger grow h s).2.Warn (l.WithCustomLogger grow h s).1 msg args [] =
        l.Warn h msg args [] ++ [SinkCall.log .Warn s msg args] ∧
      (l.WithCustomLogger grow h s).2.Error (l.WithCustomLogger grow h s).1 msg args [] =
        l.Error h msg args [] ++ [SinkCall.log .Error s msg args]) ∧
    (∀ sinks : List S,
      (chain grow (start S Any) (sinks.map Mutator.WithCustomLogger)).2.1.Trace
          (chain grow (start S Any) (sinks.map Mutator.WithCustomLogger)).1 msg args [] =
        sinks.map (fun x => SinkCall.log .Trace x msg args) ∧
      (chain grow (start S Any) (sinks.map Mutator.WithCustomLogger)).2.1.Debug
          (chain grow (start S Any) (sinks.map Mutator.WithCustomLogger)).1 msg args [] =
        sinks.map (fun x => SinkCall.log .Debug x msg args) ∧
      (chain grow (start S Any) (sinks.map Mutator.WithCustomLogger)).2.1.Info
          (chain grow (start S Any) (sinks.map Mutator.WithCustomLogger)).1 msg args [] =
        sinks.map (fun x => SinkCall.log .Info x msg args) ∧
      (chain grow (start S Any) (sinks.map Mutator.WithCustomLogger)).2.1.Warn
          (chain grow (start S Any) (sinks.map Mutator.WithCustomLogger)).1 msg args [] =
        sinks.map (fun x => SinkCall.log .Warn x msg args) ∧
      (chain grow (start S Any) (sinks.map Mutator.WithCustomLogger)).2.1.Error
          (chain grow (start S Any) (sinks.map Mutator.WithCustomLogger)).1 msg args [] =
        sinks.map (fun x => SinkCall.log .Error x msg args)) := by
  have he : (l.WithCustomLogger grow h s).2.Loggers.elems (l.WithCustomLogger grow h s).1 =
      l.Loggers.elems h ++ [s] := goAppend_elems grow h l.Loggers s hwf
  refine ⟨⟨?_, ?_, ?_, ?_, ?_⟩, ?_⟩
  · simp only [Logger.Trace, forRange_emit, he]; simp
  · simp only [Logger.Debug, forRange_emit, he]; simp
  · simp only [Logger.Info, forRange_emit, he]; simp
  · simp only [Logger.Warn, forRange_emit, he]; simp
  · simp only [Logger.Error, forRange_emit, he]; simp
  · intro sinks
    have hc := @chain_add_sinks S Any _ grow sinks
    refine ⟨?_, ?_, ?_, ?_, ?_⟩
    · simp only [Logger.Trace, forRange_emit, hc]; simp
    · simp only [Logger.Debug, forRange_emit, hc]; simp
    · simp only [Logger.Info, forRange_emit, hc]; simp
    · simp only [Logger.Warn, forRange_emit, hc]; simp
    · simp only [Logger.Error, forRange_emit, hc]; simp

/-- C17, at the logger over `A`, `B`, `C` with `D` added. -/
theorem fanout_distributes_witness :
    loggerABC.Loggers.WF heapABC ∧
      (loggerABC.WithCustomLogger double heapABC "D").2.Info
          (loggerABC.WithCustomLogger double heapABC "D").1 "m"
          ([] : List (List (LoggerArgument Val))) [] =
        loggerABC.Info heapABC "m" [] [] ++ [SinkCall.log .Info "D" "m" []] ∧
      loggerABC.Info heapABC "m" ([] : List (List (LoggerArgument Val))) [] =
        [.log .Info "A" "m" [], .log .Info "B" "m" [], .log .Info "C" "m" []] :=
  ⟨by decide,
    (@fanout_distributes String Val _ double heapABC loggerABC "D" "m" []
      (by decide)).1.2.2.1,
    by decide⟩

/-- C18: on `L.WithCustomLogger(s)`, when `L` shows the sinks `p :: rest`, `Fatal` makes the
error calls on `rest`, then the error call on `s`, then, last, its one fatal call, on `p`;
when `L` shows no sink, its one call is the fatal call on `s`. -/
theorem primary_sink_fixed {S Any : Type} [Inhabited S] (grow : Nat → Nat) (h : Heap S)
    (l : Logger) (s : S) (msg : String) (args : List (List (LoggerArgument Any)))
    (hwf : l.Loggers.WF h) :
    (∀ (p : S) (rest : List S), l.Loggers.elems h = p :: rest →
      (l.WithCustomLogger grow h s).2.Fatal (l.WithCustomLogger grow h s).1 msg args [] =
        .ok (rest.map (fun x => SinkCall.log .Error x msg args) ++
          [SinkCall.log .Error s msg args, SinkCall.log .Fatal p msg args])) ∧
    (l.Loggers.elems h = [] →
      (l.WithCustomLogger grow h s).2.Fatal (l.WithCustomLogger grow h s).1 msg args [] =
        .ok [SinkCall.log .Fatal s msg args]) := by
  have he : (l.WithCustomLogger grow h s).2.Loggers.elems (l.WithCustomLogger grow h s).1 =
      l.Loggers.elems h ++ [s] := goAppend_elems grow h l.Loggers s hwf
  constructor
  · intro p rest hx
    rw [Logger.Fatal_eq, he, hx]
    simp
  · intro hx
    rw [Logger.Fatal_eq, he, hx]
    simp

/-- C18, at the logger over `A`, `B`, `C` with `D` added, and at the logger without sinks
with `D` added. -/
theorem primary_sink_fixed_witness :
    loggerABC.Loggers.WF heapABC ∧ loggerABC.Loggers.elems heapABC = "A" :: ["B", "C"] ∧
      (loggerABC.WithCustomLogger double heapABC "D").2.Fatal
          (loggerABC.WithCustomLogger double heapABC "D").1 "m"
          ([] : List (List (LoggerArgument Val))) [] =
        .ok ((["B", "C"].map (fun x => SinkCall.log .Error x "m" [])) ++
          [SinkCall.log .Error "D" "m" [], SinkCall.log .Fatal "A" "m" []]) ∧
      (emptyLogger.WithCustomLogger double ([] : Heap String) "D").2.Fatal
          (emptyLogger.WithCustomLogger double ([] : Heap String) "D").1 "m"
          ([] : List (List (LoggerArgument Val))) [] =
        .ok [SinkCall.log .Fatal "D" "m" []] :=
  ⟨by decide, by decide,
    (@primary_sink_fixed String Val _ double heapABC loggerABC "D" "m" []
      (by decide)).1 "A" ["B", "C"] (by decide),
    (@primary_sink_fixed String Val _ double [] emptyLogger "D" "m" []
      (by decide)).2 (by decide)⟩

end GoLogger
